import Mathlib

/-!
Verification of the adaptive query cache of the hn-alerts service
(file src/libs/cache.ts) against its natural-language specification.

The TypeScript code is shallowly embedded: the key-value `Map` objects
(`cache`, `queryRegistry`) become association lists over `String` keys,
`Set` objects (`prefetchQueue`, `priorityKeys`) become lists used as sets,
JavaScript numbers appearing in fractional arithmetic become rationals,
and a single asynchronous call to a fetch function is modelled by passing
the outcome that call would produce as an `Except` value.  Fields and
definitions keep the names used in the source.
-/

namespace HnAlerts

/-- JSON-serializable values, the payloads that flow through the cache and
the HTTP layer.  Numbers are modelled as integers (the service only caches
integer counts and strings). -/
inductive JVal : Type where
  | null : JVal
  | bool : Bool → JVal
  | num : Int → JVal
  | str : String → JVal
  | arr : List JVal → JVal
  | obj : List (String × JVal) → JVal

/-- JavaScript truthiness of a `JVal`, as used by `if (data)` in
`createCacheHeaders`: `null`, `false`, `0` and the empty string are falsy,
arrays and objects are always truthy. -/
def jsTruthy : JVal → Bool
  | .null => false
  | .bool b => b
  | .num n => n != 0
  | .str s => s != ""
  | .arr _ => true
  | .obj _ => true

/-- Escape a string for JSON output (quote and backslash, the only escapes
exercised by this service). -/
def jsonEscape (s : String) : String :=
  s.data.foldl
    (fun acc c =>
      if c = '"' then acc ++ "\\\""
      else if c = '\\' then acc ++ "\\\\"
      else acc.push c)
    ""

mutual

/-- Model of JSON.stringify on a `JVal`. -/
def jsonStringify : JVal → String
  | .null => "null"
  | .bool b => if b then "true" else "false"
  | .num n => toString n
  | .str s => "\"" ++ jsonEscape s ++ "\""
  | .arr xs => "[" ++ jsonStringifyList xs ++ "]"
  | .obj fs => "\x7b" ++ jsonStringifyFields fs ++ "\x7d"

/-- Comma-separated serialization of array elements. -/
def jsonStringifyList : List JVal → String
  | [] => ""
  | [x] => jsonStringify x
  | x :: xs => jsonStringify x ++ "," ++ jsonStringifyList xs

/-- Comma-separated serialization of object fields. -/
def jsonStringifyFields : List (String × JVal) → String
  | [] => ""
  | [(k, v)] => "\"" ++ jsonEscape k ++ "\":" ++ jsonStringify v
  | (k, v) :: fs =>
      "\"" ++ jsonEscape k ++ "\":" ++ jsonStringify v ++ "," ++ jsonStringifyFields fs

end

/-! ### Association lists standing in for the JavaScript Map, and lists
standing in for the JavaScript Set. -/

/-- Lookup in a JavaScript Map: the value bound to `k`, if any (first
binding wins). -/
def lookupE {β : Type} (k : String) : List (String × β) → Option β
  | [] => none
  | (k₂, v) :: rest => if k₂ = k then some v else lookupE k rest

/-- Update of a JavaScript Map (its set method): replace the binding in
place when the key is present,
append at the end otherwise (JavaScript Map keeps insertion order on
update). -/
def setE {β : Type} (k : String) (v : β) : List (String × β) → List (String × β)
  | [] => [(k, v)]
  | (k₂, w) :: rest =>
      if k₂ = k then (k, v) :: rest else (k₂, w) :: setE k v rest

/-- Deletion from a JavaScript Map: remove the binding of `k` (at most
one exists for a well-formed map). -/
def deleteE {β : Type} (k : String) (l : List (String × β)) :
    List (String × β) :=
  l.filter (fun p => decide (p.1 ≠ k))

/-- Addition to a JavaScript Set. -/
def addKey (k : String) (l : List String) : List String :=
  if k ∈ l then l else l ++ [k]

/-- Removal from a JavaScript Set. -/
def removeKey (k : String) (l : List String) : List String :=
  l.filter (fun x => decide (x ≠ k))

/-- Well-formedness of a map: its keys are pairwise distinct. -/
def KeysNodup {β : Type} (l : List (String × β)) : Prop :=
  (l.map Prod.fst).Nodup

instance {β : Type} (l : List (String × β)) : Decidable (KeysNodup l) := by
  unfold KeysNodup; infer_instance

theorem lookupE_setE_self {β : Type} (k : String) (v : β)
    (l : List (String × β)) : lookupE k (setE k v l) = some v := by
  induction l with
  | nil => simp [setE, lookupE]
  | cons p rest ih =>
    obtain ⟨k₂, w⟩ := p
    simp only [setE]
    by_cases hp : k₂ = k
    · rw [if_pos hp]
      simp [lookupE]
    · rw [if_neg hp]
      simp only [lookupE, if_neg hp]
      exact ih

theorem lookupE_setE_ne {β : Type} {k j : String} (v : β)
    (l : List (String × β)) (hne : j ≠ k) :
    lookupE j (setE k v l) = lookupE j l := by
  induction l with
  | nil =>
    simp only [setE, lookupE]
    rw [if_neg (fun h : k = j => hne h.symm)]
  | cons p rest ih =>
    obtain ⟨k₂, w⟩ := p
    simp only [setE]
    by_cases hp : k₂ = k
    · rw [if_pos hp]
      simp only [lookupE, if_neg (fun h : k = j => hne h.symm), hp]
    · rw [if_neg hp]
      simp only [lookupE]
      by_cases hj : k₂ = j
      · rw [if_pos hj, if_pos hj]
      · rw [if_neg hj, if_neg hj]
        exact ih

theorem mem_keys_setE {β : Type} (k j : String) (v : β)
    (l : List (String × β)) :
    j ∈ (setE k v l).map Prod.fst ↔ j = k ∨ j ∈ l.map Prod.fst := by
  induction l with
  | nil => simp [setE]
  | cons p rest ih =>
    obtain ⟨k₂, w⟩ := p
    simp only [setE]
    by_cases hp : k₂ = k
    · rw [if_pos hp]
      subst hp
      simp
    · rw [if_neg hp]
      simp only [List.map_cons, List.mem_cons, ih]
      tauto

theorem keysNodup_setE {β : Type} (k : String) (v : β)
    (l : List (String × β)) (h : KeysNodup l) : KeysNodup (setE k v l) := by
  unfold KeysNodup at *
  induction l with
  | nil => simp [setE]
  | cons p rest ih =>
    obtain ⟨k₂, w⟩ := p
    simp only [List.map_cons, List.nodup_cons] at h
    simp only [setE]
    by_cases hp : k₂ = k
    · rw [if_pos hp]
      subst hp
      simp only [List.map_cons, List.nodup_cons]
      exact h
    · rw [if_neg hp]
      simp only [List.map_cons, List.nodup_cons]
      refine ⟨?_, ih h.2⟩
      rw [mem_keys_setE]
      push_neg
      exact ⟨hp, h.1⟩

theorem lookupE_filter {β : Type} (k : String) (q : String → Bool)
    (l : List (String × β)) :
    lookupE k (l.filter (fun p => q p.1)) =
      if q k then lookupE k l else none := by
  induction l with
  | nil => simp [lookupE]
  | cons p rest ih =>
    obtain ⟨k₂, w⟩ := p
    simp only [List.filter_cons]
    by_cases hk : k₂ = k
    · subst hk
      by_cases hq : q k₂
      · rw [if_pos hq, if_pos hq]
        simp [lookupE]
      · rw [if_neg hq, if_neg hq, ih, if_neg hq]
    · by_cases hq : q k₂
      · rw [if_pos hq]
        simp only [lookupE, if_neg hk]
        exact ih
      · rw [if_neg hq, ih]
        simp only [lookupE, if_neg hk]

theorem lookupE_deleteE_ne {β : Type} {k j : String}
    (l : List (String × β)) (hne : j ≠ k) :
    lookupE j (deleteE k l) = lookupE j l := by
  unfold deleteE
  rw [lookupE_filter j (fun s => decide (s ≠ k)) l]
  simp [hne]

theorem lookupE_deleteE_self {β : Type} (k : String)
    (l : List (String × β)) : lookupE k (deleteE k l) = none := by
  unfold deleteE
  rw [lookupE_filter k (fun s => decide (s ≠ k)) l]
  simp

theorem keysNodup_filter {β : Type} (q : String × β → Bool)
    (l : List (String × β)) (h : KeysNodup l) : KeysNodup (l.filter q) := by
  unfold KeysNodup at *
  induction l with
  | nil => simp
  | cons p rest ih =>
    simp only [List.map_cons, List.nodup_cons] at h
    simp only [List.filter_cons]
    by_cases hq : q p
    · rw [if_pos hq]
      simp only [List.map_cons, List.nodup_cons]
      refine ⟨fun hmem => h.1 ?_, ih h.2⟩
      rcases List.mem_map.mp hmem with ⟨x, hx, hfst⟩
      exact List.mem_map.mpr ⟨x, (List.mem_filter.mp hx).1, hfst⟩
    · rw [if_neg hq]
      exact ih h.2

end HnAlerts

namespace HnAlerts

/-! ### The QueryCache state and its operations (class QueryCache in
src/libs/cache.ts).

The data type `α` stands for the opaque cached payload, `φ` for the opaque
fetch function stored in the registry, `ε` for the opaque exception
raised by a failing fetch.  The environment flag `isProduction` is a
parameter of the operations that branch on it. -/

/-- A cache entry (type CacheItem in the source): payload plus fill time
and expiry time, in whole seconds. -/
structure CacheItem (α : Type) : Type where
  data : α
  timestamp : Nat
  expiresAt : Nat
deriving DecidableEq, Repr

/-- A fetch-registry record: the registered query function, TTL and
priority flag. -/
structure Registration (φ : Type) : Type where
  fn : φ
  ttl : Nat
  priority : Bool
deriving DecidableEq, Repr

/-- The mutable state of a QueryCache instance. -/
structure CacheState (α φ : Type) : Type where
  cache : List (String × CacheItem α)
  queryRegistry : List (String × Registration φ)
  prefetchQueue : List String
  priorityKeys : List String
  maxItems : Nat
  lowLatencyMode : Bool
  hits : Nat
  misses : Nat
  requestCounter : Nat

/-- QueryCache.register: upsert into the query registry and update the
priority-key set according to the priority flag. -/
def register {α φ : Type} (s : CacheState α φ) (key : String) (queryFn : φ)
    (ttl : Nat) (priority : Bool) : CacheState α φ :=
  { s with
    queryRegistry := setE key ⟨queryFn, ttl, priority⟩ s.queryRegistry,
    priorityKeys :=
      if priority then addKey key s.priorityKeys
      else removeKey key s.priorityKeys }

/-- The prefetch-eagerness fraction chosen in QueryCache.get: priority
keys use 0.15 (production) or 0.25 (development), regular keys use 0.05
(production) or 0.15 (development). -/
def prefetchFraction (isProduction isPriority : Bool) : ℚ :=
  if isPriority then (if isProduction then 15/100 else 25/100)
  else (if isProduction then 5/100 else 15/100)

/-- The prefetch threshold of QueryCache.get: the TTL scaled by the
eagerness fraction. -/
def prefetchThreshold (isProduction isPriority : Bool) (ttl : Nat) : ℚ :=
  (ttl : ℚ) * prefetchFraction isProduction isPriority

/-- Result of one call to QueryCache.get: the returned (or thrown) value,
the successor state, whether a background prefetch was scheduled on the
hit path, and whether stale data was served after a failed fetch. -/
structure GetOutcome (α φ ε : Type) : Type where
  result : Except ε α
  state : CacheState α φ
  prefetchScheduled : Bool
  staleOnError : Bool

/-- The miss path of QueryCache.get (lines 310-356): run the query; on
success store a fresh entry and self-register the key when unknown; on
failure fall back to the previously read (stale) entry when one exists,
otherwise rethrow.  `cached` is the entry read at the top of get. -/
def getMiss {α φ ε : Type} (s : CacheState α φ) (key : String) (queryFn : φ)
    (ttl now : Nat) (fetchRes : Except ε α) (cached : Option (CacheItem α)) :
    GetOutcome α φ ε :=
  let s₁ := { s with misses := s.misses + 1 }
  match fetchRes with
  | .ok data =>
    let s₂ := { s₁ with cache := setE key ⟨data, now, now + ttl⟩ s₁.cache }
    let s₃ :=
      match lookupE key s₂.queryRegistry with
      | none => register s₂ key queryFn ttl (decide (key ∈ s₂.priorityKeys))
      | some _ => s₂
    ⟨.ok data, s₃, false, false⟩
  | .error e =>
    match cached with
    | some c => ⟨.ok c.data, s₁, false, true⟩
    | none => ⟨.error e, s₁, false, false⟩

/-- One call to QueryCache.get, at time `now` (whole seconds), where a
fetch, if performed, returns `fetchRes`.  The hit path returns the live
entry and schedules a background prefetch when the entry is close to
expiry and no prefetch for the key is in flight. -/
def getStep {α φ ε : Type} (isProduction : Bool) (s : CacheState α φ)
    (key : String) (queryFn : φ) (ttl now : Nat) (fetchRes : Except ε α) :
    GetOutcome α φ ε :=
  let s₀ := { s with requestCounter := s.requestCounter + 1 }
  match lookupE key s₀.cache with
  | some cached =>
    if now < cached.expiresAt then
      let s₁ := { s₀ with hits := s₀.hits + 1 }
      let timeToExpiry := cached.expiresAt - now
      if ((timeToExpiry : ℚ) <
            prefetchThreshold isProduction (decide (key ∈ s₁.priorityKeys)) ttl)
          ∧ key ∉ s₁.prefetchQueue then
        ⟨.ok cached.data,
          { s₁ with prefetchQueue := addKey key s₁.prefetchQueue }, true, false⟩
      else
        ⟨.ok cached.data, s₁, false, false⟩
    else getMiss s₀ key queryFn ttl now fetchRes (some cached)
  | none => getMiss s₀ key queryFn ttl now fetchRes none

/-- TTL adjustment performed by QueryCache.prefetch after a slow query:
when low-latency mode is on and the query took more than 200 ms, the TTL
is scaled by min(3, 1 + queryTime/1000) and floored. -/
def adjustedTtl (lowLatencyMode : Bool) (ttl queryTime : Nat) : Nat :=
  if lowLatencyMode && decide (200 < queryTime) then
    (⌊(ttl : ℚ) * min 3 (1 + (queryTime : ℚ) / 1000)⌋).toNat
  else ttl

/-- Successful settlement of a background prefetch (QueryCache.prefetch,
success branch): store the refreshed entry with the possibly adjusted TTL
and leave the prefetch queue. -/
def prefetchSettleSuccess {α φ : Type} (s : CacheState α φ) (key : String)
    (data : α) (now ttl queryTime : Nat) : CacheState α φ :=
  { s with
    cache := setE key
      ⟨data, now, now + adjustedTtl s.lowLatencyMode ttl queryTime⟩ s.cache,
    prefetchQueue := removeKey key s.prefetchQueue }

/-- Failed settlement of a background prefetch (QueryCache.prefetch,
catch branch): the cache is untouched, the key leaves the prefetch
queue. -/
def prefetchSettleFailure {α φ : Type} (s : CacheState α φ) (key : String) :
    CacheState α φ :=
  { s with prefetchQueue := removeKey key s.prefetchQueue }

/-- QueryCache.invalidate: drop the entry for one key, keeping its
registration. -/
def invalidate {α φ : Type} (s : CacheState α φ) (key : String) :
    CacheState α φ :=
  { s with cache := deleteE key s.cache }

/-- QueryCache.invalidateAll: when priority keys exist, collect their
entries, clear the map and restore them; otherwise just clear. -/
def invalidateAll {α φ : Type} (s : CacheState α φ) : CacheState α φ :=
  if s.priorityKeys.length ≠ 0 then
    { s with cache := s.cache.filter (fun p => decide (p.1 ∈ s.priorityKeys)) }
  else
    { s with cache := [] }

/-- QueryCache.pruneCache at time `now`.  Returns the successor state and
whether the all-priority warning was emitted.  Phase one deletes expired
non-priority entries; phase two deletes the oldest-by-timestamp
non-priority entries down to 70 percent of capacity. -/
def pruneCache {α φ : Type} (s : CacheState α φ) (now : Nat) :
    CacheState α φ × Bool :=
  if s.cache.length ≤ s.maxItems then (s, false)
  else
    let entries := s.cache
    let expiredEntries := entries.filter
      (fun p => decide (p.2.expiresAt ≤ now) && !decide (p.1 ∈ s.priorityKeys))
    let cache₁ := expiredEntries.foldl (fun c p => deleteE p.1 c) entries
    if 0 < expiredEntries.length ∧
        (cache₁.length : ℚ) ≤ (s.maxItems : ℚ) * (9/10) then
      ({ s with cache := cache₁ }, false)
    else
      let evictableEntries :=
        entries.filter (fun p => !decide (p.1 ∈ s.priorityKeys))
      if evictableEntries.length = 0 then
        ({ s with cache := cache₁ }, true)
      else
        let sortedEvictable := evictableEntries.mergeSort
          (fun a b => decide (a.2.timestamp ≤ b.2.timestamp))
        let removeCount :=
          (⌈(cache₁.length : ℚ) - (s.maxItems : ℚ) * (7/10)⌉).toNat
        let entriesToRemove := sortedEvictable.take removeCount
        let cache₂ := entriesToRemove.foldl (fun c p => deleteE p.1 c) cache₁
        ({ s with cache := cache₂ }, false)

/-- QueryCache.runGarbageCollection at time `now`: drop every expired
non-priority entry. -/
def runGarbageCollection {α φ : Type} (s : CacheState α φ) (now : Nat) :
    CacheState α φ :=
  { s with
    cache := s.cache.filter
      (fun p =>
        !(decide (p.2.expiresAt ≤ now) && !decide (p.1 ∈ s.priorityKeys))) }

/-- The registration performed by createCachedEndpoint: frequently
accessed endpoints default to priority (the leaderboard key), otherwise
the callers choice of priority flag is used. -/
def createCachedEndpointRegistration {α φ : Type} (s : CacheState α φ)
    (cacheKey : String) (queryFn : φ) (ttl : Nat) (isPriority : Bool) :
    CacheState α φ :=
  register s cacheKey queryFn ttl
    (decide (cacheKey = "leaderboard_stories") || isPriority)

end HnAlerts

namespace HnAlerts

/-! ### Prefetch queue discipline.

QueryCache.prefetch adds the key to `prefetchQueue` when the refresh is
scheduled and removes it in the finally block when the refresh settles;
the only call site (the hit path of get) tests membership first.  The
life cycle is modelled as a trace of schedule and settle events over the
queue together with a ghost multiset of in-flight prefetches. -/

/-- A prefetch life-cycle event: a refresh is scheduled for a key, or a
previously scheduled refresh settles (success or failure). -/
inductive PrefetchEvent : Type where
  | sched (key : String) : PrefetchEvent
  | settle (key : String) : PrefetchEvent
deriving DecidableEq, Repr

/-- Trace state: the prefetchQueue set and the ghost list of keys whose
refresh is currently in flight (one occurrence per running refresh). -/
structure PrefetchTraceState : Type where
  queue : List String
  inflight : List String
deriving DecidableEq, Repr

/-- One trace step.  A schedule for a key already in the queue is refused
(the guard in get, line 302); a settle of a key not in flight changes
nothing. -/
def prefetchTraceStep (s : PrefetchTraceState) :
    PrefetchEvent → PrefetchTraceState
  | .sched k => if k ∈ s.queue then s else ⟨k :: s.queue, k :: s.inflight⟩
  | .settle k =>
      if k ∈ s.inflight then ⟨s.queue.erase k, s.inflight.erase k⟩ else s

/-- Run a trace from the initial empty state. -/
def prefetchTraceRun (events : List PrefetchEvent) : PrefetchTraceState :=
  events.foldl prefetchTraceStep ⟨[], []⟩

/-- The invariant maintained by the prefetch discipline: a key is in
flight exactly while it is in the queue, and the queue is duplicate
free. -/
def PrefetchInv (s : PrefetchTraceState) : Prop :=
  s.inflight = s.queue ∧ s.queue.Nodup

theorem prefetchInv_step (s : PrefetchTraceState) (e : PrefetchEvent)
    (h : PrefetchInv s) : PrefetchInv (prefetchTraceStep s e) := by
  obtain ⟨hq, hn⟩ := h
  cases e with
  | sched k =>
    simp only [prefetchTraceStep]
    by_cases hk : k ∈ s.queue
    · rw [if_pos hk]; exact ⟨hq, hn⟩
    · rw [if_neg hk]
      exact ⟨by rw [hq], List.nodup_cons.mpr ⟨hk, hn⟩⟩
  | settle k =>
    simp only [prefetchTraceStep]
    by_cases hk : k ∈ s.inflight
    · rw [if_pos hk]
      exact ⟨by rw [hq], hn.erase k⟩
    · rw [if_neg hk]; exact ⟨hq, hn⟩

theorem prefetchInv_run (events : List PrefetchEvent) :
    PrefetchInv (prefetchTraceRun events) := by
  have h : ∀ s, PrefetchInv s →
      PrefetchInv (events.foldl prefetchTraceStep s) := by
    induction events with
    | nil => intro s hs; exact hs
    | cons e rest ih =>
      intro s hs
      exact ih _ (prefetchInv_step s e hs)
  exact h ⟨[], []⟩ ⟨rfl, List.nodup_nil⟩

/-! ### The HTTP read adapter (createCacheHeaders, createCachedEndpoint).

The content hash pipeline of the source is
Bun.hash(JSON.stringify(data)).toString(36).slice(0, 12); Bun.hash is a
platform builtin outside this repository, so the pipeline after
JSON.stringify is modelled as an abstract function `hashFrag` from the
serialized payload to the hash fragment embedded in the ETag.  Transport
compression (compressResponse) is outside the caching contract and only
rewraps the 200 response body, so it is not modelled. -/

/-- The header record returned by createCacheHeaders. -/
structure CacheHeadersR : Type where
  contentType : String
  cacheControl : String
  etag : String
  xCacheKey : String
deriving DecidableEq, Repr

/-- createCacheHeaders: a data-derived ETag when a truthy payload is
supplied, otherwise a time-bucket ETag; plus fixed cache-control
metadata.  `version` is the package version string, `nowMs` the current
time in milliseconds. -/
def createCacheHeaders (hashFrag : String → String) (version key : String)
    (maxAge : Nat) (nowMs : Nat) (data : Option JVal) : CacheHeadersR :=
  let timeEtag : String :=
    "\"" ++ version ++ "-" ++ key ++ "-" ++
      toString (nowMs / (maxAge * 1000)) ++ "\""
  let etag : String :=
    match data with
    | some d =>
      if jsTruthy d then
        "\"" ++ version ++ "-" ++ key ++ "-" ++
          hashFrag (jsonStringify d) ++ "\""
      else timeEtag
    | none => timeEtag
  { contentType := "application/json",
    cacheControl := "public, max-age=" ++ toString ((maxAge : Int) - 10) ++
      ", stale-while-revalidate=60",
    etag := etag,
    xCacheKey := key }

/-- An HTTP response as far as the claims are concerned: status code,
body (none for an empty body) and headers. -/
structure HttpResponse : Type where
  status : Nat
  body : Option String
  headers : List (String × String)
deriving DecidableEq, Repr

/-- The pre-prepared error body (constant ERROR_RESPONSE in the source):
JSON.stringify of the fixed error envelope. -/
def ERROR_RESPONSE : String :=
  jsonStringify (.obj
    [("error", .str "An error occurred processing your request"),
     ("code", .str "INTERNAL_SERVER_ERROR")])

/-- One request served by the handler returned by createCachedEndpoint.
`getResult` is the outcome of the queryCache.get call, `clientETag` the
if-none-match header of the request. -/
def cachedEndpointHandler {ε : Type} (hashFrag : String → String)
    (version cacheKey : String) (ttl : Nat) (nowMs : Nat)
    (getResult : Except ε JVal) (clientETag : Option String) : HttpResponse :=
  match getResult with
  | .error _ =>
    { status := 500,
      body := some ERROR_RESPONSE,
      headers := [("Content-Type", "application/json"),
        ("Cache-Control", "no-cache, no-store"), ("X-Error", "true")] }
  | .ok data =>
    let headers := createCacheHeaders hashFrag version cacheKey ttl nowMs
      (some data)
    let etagMatches : Bool :=
      match clientETag with
      | some c => decide (c ≠ "") && decide (c = headers.etag)
      | none => false
    if etagMatches then
      { status := 304,
        body := none,
        headers := [("ETag", headers.etag),
          ("Cache-Control", headers.cacheControl)] }
    else
      { status := 200,
        body := some (jsonStringify data),
        headers := [("Content-Type", headers.contentType),
          ("Cache-Control", headers.cacheControl),
          ("ETag", headers.etag),
          ("X-Cache-Key", headers.xCacheKey)] }

end HnAlerts

namespace HnAlerts

/-! ### Further association-list lemmas used by the claim proofs. -/

theorem lookupE_mem {β : Type} {k : String} {v : β} {l : List (String × β)}
    (h : lookupE k l = some v) : (k, v) ∈ l := by
  induction l with
  | nil => simp [lookupE] at h
  | cons p rest ih =>
    obtain ⟨k₂, w⟩ := p
    simp only [lookupE] at h
    by_cases hk : k₂ = k
    · rw [if_pos hk] at h
      subst hk
      simp only [Option.some.injEq] at h
      subst h
      exact List.mem_cons_self _ _
    · rw [if_neg hk] at h
      exact List.mem_cons_of_mem _ (ih h)

theorem lookupE_of_mem_nodup {β : Type} {k : String} {v : β}
    {l : List (String × β)} (hn : KeysNodup l) (h : (k, v) ∈ l) :
    lookupE k l = some v := by
  induction l with
  | nil => simp at h
  | cons p rest ih =>
    obtain ⟨k₂, w⟩ := p
    unfold KeysNodup at hn
    simp only [List.map_cons, List.nodup_cons] at hn
    rcases List.mem_cons.mp h with h | h
    · have h1 : k = k₂ := congrArg Prod.fst h
      have h2 : v = w := congrArg Prod.snd h
      subst h1
      subst h2
      simp [lookupE]
    · have hne : k₂ ≠ k := by
        intro he
        subst he
        exact hn.1 (List.mem_map.mpr ⟨(k₂, v), h, rfl⟩)
      simp only [lookupE, if_neg hne]
      exact ih hn.2 h

theorem lookupE_deleteE_none {β : Type} {k j : String}
    {l : List (String × β)} (h : lookupE k l = none) :
    lookupE k (deleteE j l) = none := by
  unfold deleteE
  rw [lookupE_filter k (fun s => decide (s ≠ j)) l]
  by_cases hk : k = j <;> simp [hk, h]

theorem lookupE_foldl_deleteE_ne {β : Type} {k : String}
    (L : List (String × β)) (c₀ : List (String × β))
    (h : ∀ p ∈ L, p.1 ≠ k) :
    lookupE k (L.foldl (fun c p => deleteE p.1 c) c₀) = lookupE k c₀ := by
  induction L generalizing c₀ with
  | nil => rfl
  | cons q L ih =>
    simp only [List.foldl_cons]
    rw [ih _ (fun p hp => h p (List.mem_cons_of_mem _ hp))]
    exact lookupE_deleteE_ne c₀ (fun he => h q (List.mem_cons_self _ _) he.symm)

theorem lookupE_foldl_deleteE_none {β : Type} {k : String}
    (L : List (String × β)) (c₀ : List (String × β))
    (h : lookupE k c₀ = none) :
    lookupE k (L.foldl (fun c p => deleteE p.1 c) c₀) = none := by
  induction L generalizing c₀ with
  | nil => exact h
  | cons q L ih =>
    simp only [List.foldl_cons]
    exact ih _ (lookupE_deleteE_none h)

theorem lookupE_foldl_deleteE_of_mem {β : Type} {k : String}
    (L : List (String × β)) (c₀ : List (String × β))
    (h : ∃ p ∈ L, p.1 = k) :
    lookupE k (L.foldl (fun c p => deleteE p.1 c) c₀) = none := by
  induction L generalizing c₀ with
  | nil => simp at h
  | cons q L ih =>
    simp only [List.foldl_cons]
    by_cases hq : q.1 = k
    · subst hq
      exact lookupE_foldl_deleteE_none L _ (lookupE_deleteE_self q.1 c₀)
    · rcases h with ⟨p, hp, hpk⟩
      rcases List.mem_cons.mp hp with rfl | hp
      · exact absurd hpk hq
      · exact ih _ ⟨p, hp, hpk⟩

theorem mem_foldl_deleteE {β : Type} {x : String × β}
    (L : List (String × β)) (c₀ : List (String × β))
    (h : x ∈ L.foldl (fun c p => deleteE p.1 c) c₀) : x ∈ c₀ := by
  induction L generalizing c₀ with
  | nil => exact h
  | cons q L ih =>
    simp only [List.foldl_cons] at h
    exact List.mem_filter.mp (ih _ h) |>.1

/-- Strings that differ in a middle segment differ as a whole: append is
cancellative on both sides. -/
theorem string_append_middle_ne (pre suf a b : String) (h : a ≠ b) :
    pre ++ a ++ suf ≠ pre ++ b ++ suf := by
  intro he
  apply h
  have hd := congrArg String.data he
  simp only [String.data_append] at hd
  rw [List.append_assoc, List.append_assoc] at hd
  exact String.ext (List.append_cancel_right (List.append_cancel_left hd))

/-- A string beginning with a quote character is not empty. -/
theorem quote_append_ne_empty (s : String) : "\"" ++ s ≠ "" := by
  intro he
  have hd := congrArg String.data he
  simp only [String.data_append] at hd
  simp at hd

end HnAlerts

namespace HnAlerts

/-! ### Reduction lemmas for the get code path. -/

theorem getStep_miss {α φ ε : Type} (isProduction : Bool)
    (s : CacheState α φ) (key : String) (queryFn : φ) (ttl now : Nat)
    (fetchRes : Except ε α)
    (hexpired : ∀ c, lookupE key s.cache = some c → c.expiresAt ≤ now) :
    getStep isProduction s key queryFn ttl now fetchRes =
      getMiss { s with requestCounter := s.requestCounter + 1 } key queryFn
        ttl now fetchRes (lookupE key s.cache) := by
  cases hc : lookupE key s.cache with
  | some c =>
    simp only [getStep, hc, Nat.not_lt.mpr (hexpired c hc), if_false]
  | none =>
    simp only [getStep, hc]

theorem getMiss_ok_result {α φ ε : Type} (s : CacheState α φ) (key : String)
    (queryFn : φ) (ttl now : Nat) (v : α) (cached : Option (CacheItem α)) :
    (getMiss s key queryFn ttl now (Except.ok v : Except ε α)
      cached).result = Except.ok v := by
  cases hr : lookupE key s.queryRegistry <;> simp [getMiss, hr]

theorem getMiss_ok_cache {α φ ε : Type} (s : CacheState α φ) (key : String)
    (queryFn : φ) (ttl now : Nat) (v : α) (cached : Option (CacheItem α)) :
    (getMiss s key queryFn ttl now (Except.ok v : Except ε α)
      cached).state.cache = setE key ⟨v, now, now + ttl⟩ s.cache := by
  cases hr : lookupE key s.queryRegistry <;> simp [getMiss, hr, register]

theorem getMiss_ok_registry_none {α φ ε : Type} (s : CacheState α φ)
    (key : String) (queryFn : φ) (ttl now : Nat) (v : α)
    (cached : Option (CacheItem α))
    (hr : lookupE key s.queryRegistry = none) :
    (getMiss s key queryFn ttl now (Except.ok v : Except ε α)
      cached).state.queryRegistry =
      setE key ⟨queryFn, ttl, decide (key ∈ s.priorityKeys)⟩
        s.queryRegistry := by
  simp [getMiss, hr, register]

theorem getMiss_ok_registry_some {α φ ε : Type} (s : CacheState α φ)
    (key : String) (queryFn : φ) (ttl now : Nat) (v : α)
    (cached : Option (CacheItem α)) (r : Registration φ)
    (hr : lookupE key s.queryRegistry = some r) :
    (getMiss s key queryFn ttl now (Except.ok v : Except ε α)
      cached).state.queryRegistry = s.queryRegistry := by
  simp [getMiss, hr]

/-- C1: on the miss path (entry absent or expired) with a failing fetch,
get returns the stale data of the entry that still physically exists in
the store, without propagating the error and leaving the store unchanged,
and raises the stale-on-error signal; when no entry exists for the key
the fetch error propagates to the caller. -/
theorem get_stale_on_error {α φ ε : Type} (isProduction : Bool)
    (s : CacheState α φ) (key : String) (queryFn : φ) (ttl now : Nat) (e : ε)
    (hexpired : ∀ c, lookupE key s.cache = some c → c.expiresAt ≤ now) :
    (∀ c, lookupE key s.cache = some c →
      (getStep isProduction s key queryFn ttl now (Except.error e)).result =
          Except.ok c.data ∧
        (getStep isProduction s key queryFn ttl now
            (Except.error e)).staleOnError = true ∧
        (getStep isProduction s key queryFn ttl now
            (Except.error e)).state.cache = s.cache) ∧
    (lookupE key s.cache = none →
      (getStep isProduction s key queryFn ttl now (Except.error e)).result =
          Except.error e ∧
        (getStep isProduction s key queryFn ttl now
            (Except.error e)).staleOnError = false) := by
  constructor
  · intro c hc
    have hexp := hexpired c hc
    simp only [getStep, hc, Nat.not_lt.mpr hexp, if_false, getMiss]
    simp [getMiss]
  · intro hc
    simp only [getStep, hc, getMiss]
    simp [getMiss]

/-- C2: a miss (entry absent or expired) whose fetch succeeds with `v`
returns `v`, stores a fresh entry expiring `ttl` seconds after `now`,
registers the key with the supplied function and TTL when it was not
registered, leaves an existing registration unchanged, and touches no
other entry of the store. -/
theorem get_miss_success {α φ ε : Type} (isProduction : Bool)
    (s : CacheState α φ) (key : String) (queryFn : φ) (ttl now : Nat) (v : α)
    (hexpired : ∀ c, lookupE key s.cache = some c → c.expiresAt ≤ now) :
    (getStep isProduction s key queryFn ttl now
        (Except.ok v : Except ε α)).result = Except.ok v ∧
    lookupE key (getStep isProduction s key queryFn ttl now
        (Except.ok v : Except ε α)).state.cache = some ⟨v, now, now + ttl⟩ ∧
    (lookupE key s.queryRegistry = none →
      lookupE key (getStep isProduction s key queryFn ttl now
          (Except.ok v : Except ε α)).state.queryRegistry =
        some ⟨queryFn, ttl, decide (key ∈ s.priorityKeys)⟩) ∧
    (∀ r, lookupE key s.queryRegistry = some r →
      (getStep isProduction s key queryFn ttl now
          (Except.ok v : Except ε α)).state.queryRegistry =
        s.queryRegistry) ∧
    (∀ j, j ≠ key →
      lookupE j (getStep isProduction s key queryFn ttl now
          (Except.ok v : Except ε α)).state.cache = lookupE j s.cache) := by
  rw [getStep_miss isProduction s key queryFn ttl now _ hexpired]
  refine ⟨getMiss_ok_result .., ?_, fun hr => ?_, fun r hr => ?_, fun j hj => ?_⟩
  · rw [getMiss_ok_cache]
    exact lookupE_setE_self ..
  · have h := getMiss_ok_registry_none (ε := ε)
      { s with requestCounter := s.requestCounter + 1 } key queryFn ttl now v
      (lookupE key s.cache) hr
    rw [h]
    exact lookupE_setE_self ..
  · exact getMiss_ok_registry_some (ε := ε)
      { s with requestCounter := s.requestCounter + 1 } key queryFn ttl now v
      (lookupE key s.cache) r hr
  · rw [getMiss_ok_cache]
    exact lookupE_setE_ne _ _ hj

/-- C3: every fill stores an entry whose expiry is exactly the fill time
plus the TTL in effect (the call TTL on a miss fill, the slow-query
adjusted TTL on a prefetch fill), the store keeps at most one entry per
key (the fill replaces in place, last write wins), and key uniqueness is
preserved. -/
theorem fill_ttl_and_uniqueness {α φ ε : Type} (isProduction : Bool)
    (s : CacheState α φ) (key : String) (queryFn : φ)
    (ttl now queryTime : Nat) (v w : α)
    (hnodup : KeysNodup s.cache)
    (hexpired : ∀ c, lookupE key s.cache = some c → c.expiresAt ≤ now) :
    (lookupE key (getStep isProduction s key queryFn ttl now
        (Except.ok v : Except ε α)).state.cache = some ⟨v, now, now + ttl⟩ ∧
      (∀ it, lookupE key (getStep isProduction s key queryFn ttl now
          (Except.ok v : Except ε α)).state.cache = some it →
        it.expiresAt - it.timestamp = ttl) ∧
      KeysNodup (getStep isProduction s key queryFn ttl now
          (Except.ok v : Except ε α)).state.cache) ∧
    (lookupE key (prefetchSettleSuccess s key w now ttl queryTime).cache =
        some ⟨w, now, now + adjustedTtl s.lowLatencyMode ttl queryTime⟩ ∧
      (∀ it, lookupE key (prefetchSettleSuccess s key w now ttl
          queryTime).cache = some it →
        it.expiresAt - it.timestamp =
          adjustedTtl s.lowLatencyMode ttl queryTime) ∧
      KeysNodup (prefetchSettleSuccess s key w now ttl queryTime).cache) := by
  rw [getStep_miss isProduction s key queryFn ttl now _ hexpired]
  rw [getMiss_ok_cache]
  refine ⟨⟨lookupE_setE_self .., fun it hit => ?_, ?_⟩, ?_, fun it hit => ?_, ?_⟩
  · rw [lookupE_setE_self] at hit
    cases hit
    simp
  · exact keysNodup_setE _ _ _ hnodup
  · simp only [prefetchSettleSuccess]
    exact lookupE_setE_self ..
  · simp only [prefetchSettleSuccess] at hit
    rw [lookupE_setE_self] at hit
    cases hit
    simp
  · simp only [prefetchSettleSuccess]
    exact keysNodup_setE _ _ _ hnodup

end HnAlerts

namespace HnAlerts

/-- A concrete cache state used by several witnesses: one entry for key k
filled at 100 expiring at 160, registered without priority. -/
def sampleState : CacheState Nat Unit :=
  { cache := [("k", ⟨7, 100, 160⟩)],
    queryRegistry := [("k", ⟨(), 60, false⟩)],
    prefetchQueue := [],
    priorityKeys := [],
    maxItems := 500,
    lowLatencyMode := true,
    hits := 0,
    misses := 0,
    requestCounter := 0 }

/-- A concrete empty cache state used by several witnesses. -/
def emptyState : CacheState Nat Unit :=
  { cache := [],
    queryRegistry := [],
    prefetchQueue := [],
    priorityKeys := [],
    maxItems := 500,
    lowLatencyMode := true,
    hits := 0,
    misses := 0,
    requestCounter := 0 }

theorem sampleExpired200 : ∀ c : CacheItem Nat,
    lookupE "k" sampleState.cache = some c → c.expiresAt ≤ 200 := by
  intro c hc
  rw [show lookupE "k" sampleState.cache = some ⟨7, 100, 160⟩ from rfl] at hc
  injection hc with h
  rw [← h]
  decide

theorem get_stale_on_error_witness :
    (∀ c : CacheItem Nat,
      lookupE "k" sampleState.cache = some c → c.expiresAt ≤ 200) ∧
    ((∀ c, lookupE "k" sampleState.cache = some c →
      (getStep true sampleState "k" () 60 200
          (Except.error "boom")).result = Except.ok c.data ∧
        (getStep true sampleState "k" () 60 200
            (Except.error "boom")).staleOnError = true ∧
        (getStep true sampleState "k" () 60 200
            (Except.error "boom")).state.cache = sampleState.cache) ∧
      (lookupE "k" sampleState.cache = none →
        (getStep true sampleState "k" () 60 200
            (Except.error "boom")).result = Except.error "boom" ∧
          (getStep true sampleState "k" () 60 200
              (Except.error "boom")).staleOnError = false)) :=
  ⟨sampleExpired200,
    get_stale_on_error true sampleState "k" () 60 200 "boom" sampleExpired200⟩

end HnAlerts

namespace HnAlerts

theorem emptyNoEntry100 : ∀ c : CacheItem Nat,
    lookupE "k" emptyState.cache = some c → c.expiresAt ≤ 100 := by
  intro c hc
  rw [show lookupE "k" emptyState.cache = none from rfl] at hc
  exact Option.noConfusion hc

theorem get_miss_success_witness :
    (∀ c : CacheItem Nat,
      lookupE "k" emptyState.cache = some c → c.expiresAt ≤ 100) ∧
    ((getStep true emptyState "k" () 60 100
        (Except.ok 9 : Except String Nat)).result = Except.ok 9 ∧
      lookupE "k" (getStep true emptyState "k" () 60 100
          (Except.ok 9 : Except String Nat)).state.cache =
        some ⟨9, 100, 100 + 60⟩ ∧
      (lookupE "k" emptyState.queryRegistry = none →
        lookupE "k" (getStep true emptyState "k" () 60 100
            (Except.ok 9 : Except String Nat)).state.queryRegistry =
          some ⟨(), 60, decide ("k" ∈ emptyState.priorityKeys)⟩) ∧
      (∀ r, lookupE "k" emptyState.queryRegistry = some r →
        (getStep true emptyState "k" () 60 100
            (Except.ok 9 : Except String Nat)).state.queryRegistry =
          emptyState.queryRegistry) ∧
      (∀ j, j ≠ "k" →
        lookupE j (getStep true emptyState "k" () 60 100
            (Except.ok 9 : Except String Nat)).state.cache =
          lookupE j emptyState.cache)) :=
  ⟨emptyNoEntry100,
    get_miss_success true emptyState "k" () 60 100 9 emptyNoEntry100⟩

theorem fill_ttl_and_uniqueness_witness :
    (KeysNodup sampleState.cache ∧
      ∀ c : CacheItem Nat,
        lookupE "k" sampleState.cache = some c → c.expiresAt ≤ 200) ∧
    ((lookupE "k" (getStep true sampleState "k" () 60 200
        (Except.ok 9 : Except String Nat)).state.cache =
          some ⟨9, 200, 200 + 60⟩ ∧
      (∀ it, lookupE "k" (getStep true sampleState "k" () 60 200
          (Except.ok 9 : Except String Nat)).state.cache = some it →
        it.expiresAt - it.timestamp = 60) ∧
      KeysNodup (getStep true sampleState "k" () 60 200
          (Except.ok 9 : Except String Nat)).state.cache) ∧
    (lookupE "k" (prefetchSettleSuccess sampleState "k" 11 200 60 250).cache =
        some ⟨11, 200, 200 + adjustedTtl sampleState.lowLatencyMode 60 250⟩ ∧
      (∀ it, lookupE "k" (prefetchSettleSuccess sampleState "k" 11 200
          60 250).cache = some it →
        it.expiresAt - it.timestamp =
          adjustedTtl sampleState.lowLatencyMode 60 250) ∧
      KeysNodup (prefetchSettleSuccess sampleState "k" 11 200 60 250).cache)) :=
  ⟨⟨by decide, sampleExpired200⟩,
    fill_ttl_and_uniqueness true sampleState "k" () 60 200 250 9 11
      (by decide) sampleExpired200⟩

end HnAlerts

namespace HnAlerts

/-- C4: invalidateAll keeps every entry whose key is in the priority-key
set, completely unchanged, removes every other entry, and performs no
re-fetch: the registry, the prefetch queue, the priority keys and the
hit and miss counters are untouched. -/
theorem invalidateAll_preserves_priority {α φ : Type} (s : CacheState α φ)
    (k : String) :
    lookupE k (invalidateAll s).cache =
      (if k ∈ s.priorityKeys then lookupE k s.cache else none) ∧
    (invalidateAll s).queryRegistry = s.queryRegistry ∧
    (invalidateAll s).prefetchQueue = s.prefetchQueue ∧
    (invalidateAll s).priorityKeys = s.priorityKeys ∧
    (invalidateAll s).hits = s.hits ∧
    (invalidateAll s).misses = s.misses := by
  unfold invalidateAll
  by_cases hp : s.priorityKeys.length ≠ 0
  · rw [if_pos hp]
    refine ⟨?_, rfl, rfl, rfl, rfl, rfl⟩
    rw [lookupE_filter k (fun x => decide (x ∈ s.priorityKeys)) s.cache]
    by_cases hk : k ∈ s.priorityKeys <;> simp [hk]
  · rw [if_neg hp]
    push_neg at hp
    rw [List.length_eq_zero] at hp
    refine ⟨?_, rfl, rfl, rfl, rfl, rfl⟩
    rw [hp]
    simp [lookupE]

end HnAlerts

namespace HnAlerts

theorem lookupE_filter_keep {β : Type} (k : String) (q : String × β → Bool)
    (l : List (String × β)) (hq : ∀ p ∈ l, p.1 = k → q p = true) :
    lookupE k (l.filter q) = lookupE k l := by
  induction l with
  | nil => rfl
  | cons p rest ih =>
    obtain ⟨k₂, w⟩ := p
    simp only [List.filter_cons]
    by_cases hk : k₂ = k
    · rw [if_pos (hq (k₂, w) (List.mem_cons_self _ _) hk)]
      simp only [lookupE, if_pos hk]
    · by_cases hqp : q (k₂, w)
      · rw [if_pos hqp]
        simp only [lookupE, if_neg hk]
        exact ih (fun p hp hpk => hq p (List.mem_cons_of_mem _ hp) hpk)
      · rw [if_neg hqp]
        rw [ih (fun p hp hpk => hq p (List.mem_cons_of_mem _ hp) hpk)]
        simp only [lookupE, if_neg hk]

theorem pruneCache_priority_lookup {α φ : Type} (s : CacheState α φ)
    (now : Nat) {k : String} {it : CacheItem α} (hk : k ∈ s.priorityKeys)
    (hit : lookupE k s.cache = some it) :
    lookupE k (pruneCache s now).1.cache = some it := by
  simp only [pruneCache]
  by_cases h₁ : s.cache.length ≤ s.maxItems
  · rw [if_pos h₁]
    exact hit
  · rw [if_neg h₁]
    have hexpkeys : ∀ p ∈ s.cache.filter
        (fun p => decide (p.2.expiresAt ≤ now) &&
          !decide (p.1 ∈ s.priorityKeys)), p.1 ≠ k := by
      intro p hp he
      have h2 := (List.mem_filter.mp hp).2
      simp only [Bool.and_eq_true, Bool.not_eq_true',
        decide_eq_false_iff_not] at h2
      exact h2.2 (he ▸ hk)
    have hc₁ : lookupE k ((s.cache.filter
        (fun p => decide (p.2.expiresAt ≤ now) &&
          !decide (p.1 ∈ s.priorityKeys))).foldl
        (fun c p => deleteE p.1 c) s.cache) = some it :=
      (lookupE_foldl_deleteE_ne _ _ hexpkeys).trans hit
    split
    · exact hc₁
    · split
      · exact hc₁
      · have htrm : ∀ p ∈ ((s.cache.filter
            (fun p => !decide (p.1 ∈ s.priorityKeys))).mergeSort
            (fun a b => decide (a.2.timestamp ≤ b.2.timestamp))).take
            ((⌈(((s.cache.filter
              (fun p => decide (p.2.expiresAt ≤ now) &&
                !decide (p.1 ∈ s.priorityKeys))).foldl
              (fun c p => deleteE p.1 c) s.cache).length : ℚ) -
              (s.maxItems : ℚ) * (7/10)⌉).toNat), p.1 ≠ k := by
          intro p hp he
          have hmem : p ∈ s.cache.filter
              (fun p => !decide (p.1 ∈ s.priorityKeys)) :=
            List.mem_mergeSort.mp (List.take_subset _ _ hp)
          have h2 := (List.mem_filter.mp hmem).2
          simp only [Bool.not_eq_true', decide_eq_false_iff_not] at h2
          exact h2 (he ▸ hk)
        exact (lookupE_foldl_deleteE_ne _ _ htrm).trans hc₁

end HnAlerts

namespace HnAlerts

theorem pruneCache_all_priority {α φ : Type} (s : CacheState α φ)
    (now : Nat) (hall : ∀ p ∈ s.cache, p.1 ∈ s.priorityKeys)
    (hover : s.maxItems < s.cache.length) :
    pruneCache s now = (s, true) := by
  simp only [pruneCache]
  rw [if_neg (Nat.not_le.mpr hover)]
  have hE : s.cache.filter
      (fun p => decide (p.2.expiresAt ≤ now) &&
        !decide (p.1 ∈ s.priorityKeys)) = [] := by
    rw [List.filter_eq_nil_iff]
    intro p hp
    simp [hall p hp]
  have hV : s.cache.filter (fun p => !decide (p.1 ∈ s.priorityKeys)) = [] := by
    rw [List.filter_eq_nil_iff]
    intro p hp
    simp [hall p hp]
  rw [hE, hV]
  simp

end HnAlerts

namespace HnAlerts

theorem pruneCache_phase2_oldest {α φ : Type} (s : CacheState α φ)
    (now : Nat) (hnodup : KeysNodup s.cache) {k j : String}
    {it jt : CacheItem α}
    (hit : lookupE k s.cache = some it)
    (hfresh : now < it.expiresAt)
    (hgone : lookupE k (pruneCache s now).1.cache = none)
    (hjt : lookupE j (pruneCache s now).1.cache = some jt)
    (hjp : j ∉ s.priorityKeys) :
    it.timestamp ≤ jt.timestamp := by
  by_cases h₁ : s.cache.length ≤ s.maxItems
  · exfalso
    have hsame : (pruneCache s now).1.cache = s.cache := by
      simp only [pruneCache]
      rw [if_pos h₁]
    rw [hsame, hit] at hgone
    cases hgone
  · simp only [pruneCache] at hgone hjt
    rw [if_neg h₁] at hgone hjt
    have hexpkeys : ∀ p ∈ s.cache.filter
        (fun p => decide (p.2.expiresAt ≤ now) &&
          !decide (p.1 ∈ s.priorityKeys)), p.1 ≠ k := by
      intro p hp he
      have hmem := (List.mem_filter.mp hp).1
      have hcond := (List.mem_filter.mp hp).2
      simp only [Bool.and_eq_true, decide_eq_true_eq, Bool.not_eq_true',
        decide_eq_false_iff_not] at hcond
      have hlk : (k, p.2) ∈ s.cache := by
        rw [← he]
        exact hmem
      have hps := lookupE_of_mem_nodup hnodup hlk
      rw [hit] at hps
      injection hps with h₂
      rw [← h₂] at hcond
      exact absurd hcond.1 (Nat.not_le.mpr hfresh)
    have hc₁k : lookupE k ((s.cache.filter
        (fun p => decide (p.2.expiresAt ≤ now) &&
          !decide (p.1 ∈ s.priorityKeys))).foldl
        (fun c p => deleteE p.1 c) s.cache) = some it :=
      (lookupE_foldl_deleteE_ne _ _ hexpkeys).trans hit
    split at hgone
    · rename_i hcond
      dsimp only at hgone
      rw [hc₁k] at hgone
      cases hgone
    · rename_i hcond
      rw [if_neg hcond] at hjt
      split at hgone
      · rename_i hlen
        dsimp only at hgone
        rw [hc₁k] at hgone
        cases hgone
      · rename_i hlen
        rw [if_neg hlen] at hjt
        dsimp only at hgone hjt
        set E := s.cache.filter
          (fun p => decide (p.2.expiresAt ≤ now) &&
            !decide (p.1 ∈ s.priorityKeys)) with hE
        set C1 := E.foldl (fun c p => deleteE p.1 c) s.cache with hC1
        set V := s.cache.filter (fun p => !decide (p.1 ∈ s.priorityKeys))
          with hV
        set S := V.mergeSort
          (fun a b => decide (a.2.timestamp ≤ b.2.timestamp)) with hS
        set RC := (⌈(C1.length : ℚ) - (s.maxItems : ℚ) * (7/10)⌉).toNat
          with hRC
        set T := S.take RC with hT
        -- the removed key k must occur in the phase-2 removal list
        have hkT : ∃ p ∈ T, p.1 = k := by
          by_contra hnk
          push_neg at hnk
          have := (lookupE_foldl_deleteE_ne T C1 hnk).trans hc₁k
          rw [this] at hgone
          cases hgone
        obtain ⟨p, hpT, hpk⟩ := hkT
        have hpS : p ∈ S := List.take_subset _ _ hpT
        have hpV : p ∈ V := List.mem_mergeSort.mp hpS
        have hpc : p ∈ s.cache := (List.mem_filter.mp hpV).1
        have hlk : (k, p.2) ∈ s.cache := by
          rw [← hpk]
          exact hpc
        have hps := lookupE_of_mem_nodup hnodup hlk
        rw [hit] at hps
        injection hps with h₂
        have hpe : p = (k, it) := by
          rw [Prod.ext_iff]
          exact ⟨hpk, h₂.symm⟩
        rw [hpe] at hpT
        -- the surviving entry (j, jt) sits in the untouched suffix
        have hjC2 : (j, jt) ∈ T.foldl (fun c p => deleteE p.1 c) C1 :=
          lookupE_mem hjt
        have hjC1 : (j, jt) ∈ C1 := mem_foldl_deleteE _ _ hjC2
        have hjc : (j, jt) ∈ s.cache := mem_foldl_deleteE _ _ hjC1
        have hjV : (j, jt) ∈ V := by
          rw [hV]
          exact List.mem_filter.mpr ⟨hjc, by simp [hjp]⟩
        have hjS : (j, jt) ∈ S := List.mem_mergeSort.mpr hjV
        have hjnT : (j, jt) ∉ T := by
          intro hmemT
          have := lookupE_foldl_deleteE_of_mem T C1 ⟨(j, jt), hmemT, rfl⟩
          rw [this] at hjt
          cases hjt
        have hjD : (j, jt) ∈ S.drop RC := by
          have := (List.take_append_drop RC S) ▸ hjS
          rcases List.mem_append.mp this with h | h
          · exact absurd (hT ▸ h) hjnT
          · exact h
        -- sortedness of the merge sort output
        have hsorted := @List.sorted_mergeSort (String × CacheItem α)
          (fun a b => decide (a.2.timestamp ≤ b.2.timestamp))
          (fun a b c hab hbc => by
            simp only [decide_eq_true_eq] at *
            exact Nat.le_trans hab hbc)
          (fun a b => by
            simp only [Bool.or_eq_true, decide_eq_true_eq]
            exact Nat.le_total _ _)
          V
        rw [← hS] at hsorted
        rw [← List.take_append_drop RC S, ← hT] at hsorted
        have hrel := (List.pairwise_append.mp hsorted).2.2 (k, it) hpT
          (j, jt) hjD
        simpa using hrel
end HnAlerts

namespace HnAlerts

theorem gc_priority_lookup {α φ : Type} (s : CacheState α φ) (now : Nat)
    {k : String} {it : CacheItem α} (hk : k ∈ s.priorityKeys)
    (hit : lookupE k s.cache = some it) :
    lookupE k (runGarbageCollection s now).cache = some it := by
  simp only [runGarbageCollection]
  rw [lookupE_filter_keep k _ s.cache ?_]
  · exact hit
  · intro p hp hpk
    simp [hpk, hk]

/-- A concrete state exercising the pruning paths: three entries, two of
them evictable (one expired), one priority, over a capacity of two. -/
def pruneSampleState : CacheState Nat Unit :=
  { cache := [("a", ⟨1, 10, 20⟩), ("b", ⟨2, 5, 1000⟩), ("c", ⟨3, 7, 1000⟩)],
    queryRegistry := [],
    prefetchQueue := [],
    priorityKeys := ["b"],
    maxItems := 2,
    lowLatencyMode := true,
    hits := 0,
    misses := 0,
    requestCounter := 0 }

/-- C5: pruning never removes a priority entry (each survives both the
expired-entry phase and the age-based phase completely unchanged); every
entry pruning removes is non-priority; when every entry is priority and
the store is over capacity, pruning changes nothing and only reports the
warning; an unexpired entry that the age-based phase removes is at most
as young as any surviving non-priority entry; and garbage collection
also never removes a priority entry. -/
theorem pruneCache_respects_priority {α φ : Type} (s : CacheState α φ)
    (now : Nat) (hnodup : KeysNodup s.cache) :
    (∀ k it, k ∈ s.priorityKeys → lookupE k s.cache = some it →
      lookupE k (pruneCache s now).1.cache = some it) ∧
    (∀ k it, lookupE k s.cache = some it →
      lookupE k (pruneCache s now).1.cache = none → k ∉ s.priorityKeys) ∧
    ((∀ p ∈ s.cache, p.1 ∈ s.priorityKeys) → s.maxItems < s.cache.length →
      pruneCache s now = (s, true)) ∧
    (∀ k j it jt, lookupE k s.cache = some it → now < it.expiresAt →
      lookupE k (pruneCache s now).1.cache = none →
      lookupE j (pruneCache s now).1.cache = some jt →
      j ∉ s.priorityKeys → it.timestamp ≤ jt.timestamp) ∧
    (∀ k it, k ∈ s.priorityKeys → lookupE k s.cache = some it →
      lookupE k (runGarbageCollection s now).cache = some it) := by
  refine ⟨fun k it hk hit => pruneCache_priority_lookup s now hk hit,
    fun k it hit hgone hk => ?_,
    fun hall hover => pruneCache_all_priority s now hall hover,
    fun k j it jt hit hfresh hgone hjt hjp =>
      pruneCache_phase2_oldest s now hnodup hit hfresh hgone hjt hjp,
    fun k it hk hit => gc_priority_lookup s now hk hit⟩
  rw [pruneCache_priority_lookup s now hk hit] at hgone
  cases hgone

theorem pruneCache_respects_priority_witness :
    KeysNodup pruneSampleState.cache ∧
    ((∀ k it, k ∈ pruneSampleState.priorityKeys →
      lookupE k pruneSampleState.cache = some it →
      lookupE k (pruneCache pruneSampleState 50).1.cache = some it) ∧
    (∀ k it, lookupE k pruneSampleState.cache = some it →
      lookupE k (pruneCache pruneSampleState 50).1.cache = none →
      k ∉ pruneSampleState.priorityKeys) ∧
    ((∀ p ∈ pruneSampleState.cache, p.1 ∈ pruneSampleState.priorityKeys) →
      pruneSampleState.maxItems < pruneSampleState.cache.length →
      pruneCache pruneSampleState 50 = (pruneSampleState, true)) ∧
    (∀ k j it jt, lookupE k pruneSampleState.cache = some it →
      50 < it.expiresAt →
      lookupE k (pruneCache pruneSampleState 50).1.cache = none →
      lookupE j (pruneCache pruneSampleState 50).1.cache = some jt →
      j ∉ pruneSampleState.priorityKeys → it.timestamp ≤ jt.timestamp) ∧
    (∀ k it, k ∈ pruneSampleState.priorityKeys →
      lookupE k pruneSampleState.cache = some it →
      lookupE k (runGarbageCollection pruneSampleState 50).cache =
        some it)) :=
  ⟨by decide, pruneCache_respects_priority pruneSampleState 50 (by decide)⟩

end HnAlerts

namespace HnAlerts

/-- C6: per-key single flight of background prefetches.  Along any event
trace: a key has at most one prefetch in flight; it is in the
prefetchQueue set exactly while a prefetch is in flight; a schedule
request for a key already in the set is refused; the key stays in the
set under every event other than its own settlement and leaves the set
when its prefetch settles.  Moreover one get call schedules a prefetch
only when the key is absent from the queue, and puts it there. -/
theorem prefetch_single_flight (events : List PrefetchEvent) (k : String) :
    ((prefetchTraceRun events).inflight.count k ≤ 1) ∧
    (k ∈ (prefetchTraceRun events).inflight ↔
      k ∈ (prefetchTraceRun events).queue) ∧
    (k ∈ (prefetchTraceRun events).queue →
      prefetchTraceStep (prefetchTraceRun events) (PrefetchEvent.sched k) =
        prefetchTraceRun events) ∧
    (∀ e, k ∈ (prefetchTraceRun events).queue →
      e ≠ PrefetchEvent.settle k →
      k ∈ (prefetchTraceStep (prefetchTraceRun events) e).queue) ∧
    (k ∉ (prefetchTraceStep (prefetchTraceRun events)
        (PrefetchEvent.settle k)).queue) ∧
    (∀ (α φ ε : Type) (isProduction : Bool) (s : CacheState α φ)
        (queryFn : φ) (ttl now : Nat) (fetchRes : Except ε α),
      (getStep isProduction s k queryFn ttl now
          fetchRes).prefetchScheduled = true →
      k ∉ s.prefetchQueue ∧
        k ∈ (getStep isProduction s k queryFn ttl now
            fetchRes).state.prefetchQueue) := by
  obtain ⟨hqi, hnd⟩ := prefetchInv_run events
  refine ⟨?_, ?_, ?_, ?_, ?_, ?_⟩
  · rw [hqi]
    exact List.nodup_iff_count_le_one.mp hnd k
  · rw [hqi]
  · intro hk
    simp only [prefetchTraceStep, if_pos hk]
  · intro e hk he
    cases e with
    | sched k₂ =>
      simp only [prefetchTraceStep]
      by_cases h : k₂ ∈ (prefetchTraceRun events).queue
      · rw [if_pos h]
        exact hk
      · rw [if_neg h]
        exact List.mem_cons_of_mem _ hk
    | settle k₂ =>
      have hne : k ≠ k₂ := fun h => he (h ▸ rfl)
      simp only [prefetchTraceStep]
      by_cases h : k₂ ∈ (prefetchTraceRun events).inflight
      · rw [if_pos h]
        exact List.mem_erase_of_ne hne |>.mpr hk
      · rw [if_neg h]
        exact hk
  · simp only [prefetchTraceStep]
    by_cases h : k ∈ (prefetchTraceRun events).inflight
    · rw [if_pos h]
      intro hmem
      exact absurd ((hnd.mem_erase_iff.mp hmem).1) (fun hh => hh rfl)
    · rw [if_neg h]
      rw [hqi] at h
      exact h
  · intro α φ ε isProduction s queryFn ttl now fetchRes hsched
    cases hc : lookupE k s.cache with
    | none =>
      exfalso
      rw [getStep_miss isProduction s k queryFn ttl now fetchRes
        (fun c hcc => by rw [hc] at hcc; cases hcc)] at hsched
      cases fetchRes with
      | ok v =>
        cases hr : lookupE k s.queryRegistry with
        | none => simp [getMiss, hr, register] at hsched
        | some r => simp [getMiss, hr] at hsched
      | error e => simp [getMiss, hc] at hsched
    | some c =>
      by_cases hfr : now < c.expiresAt
      · simp only [getStep, hc, if_pos hfr] at hsched ⊢
        by_cases hcnd : (((c.expiresAt - now : Nat) : ℚ) <
            prefetchThreshold isProduction (decide (k ∈ s.priorityKeys)) ttl)
            ∧ k ∉ s.prefetchQueue
        · rw [if_pos hcnd] at hsched ⊢
          refine ⟨hcnd.2, ?_⟩
          simp only [addKey]
          rw [if_neg hcnd.2]
          simp
        · rw [if_neg hcnd] at hsched
          cases hsched
      · exfalso
        rw [getStep_miss isProduction s k queryFn ttl now fetchRes
          (fun c₂ hcc => by
            rw [hc] at hcc
            injection hcc with h₂
            rw [← h₂]
            exact Nat.not_lt.mp hfr)] at hsched
        cases fetchRes with
        | ok v =>
          cases hr : lookupE k s.queryRegistry with
          | none => simp [getMiss, hr, register] at hsched
          | some r => simp [getMiss, hr] at hsched
        | error e =>
          simp [getMiss, hc] at hsched

end HnAlerts

namespace HnAlerts

theorem prefetch_single_flight_witness :
    ((prefetchTraceRun [PrefetchEvent.sched "a"]).inflight.count "a" ≤ 1) ∧
    ("a" ∈ (prefetchTraceRun [PrefetchEvent.sched "a"]).queue) ∧
    (prefetchTraceStep (prefetchTraceRun [PrefetchEvent.sched "a"])
        (PrefetchEvent.sched "a") =
      prefetchTraceRun [PrefetchEvent.sched "a"]) ∧
    ("a" ∉ (prefetchTraceStep (prefetchTraceRun [PrefetchEvent.sched "a"])
        (PrefetchEvent.settle "a")).queue) :=
  ⟨(prefetch_single_flight [PrefetchEvent.sched "a"] "a").1,
    by decide,
    (prefetch_single_flight [PrefetchEvent.sched "a"] "a").2.2.1 (by decide),
    (prefetch_single_flight [PrefetchEvent.sched "a"] "a").2.2.2.2.1⟩

/-- C7 counterexample: the claim says the prefetch threshold used for a
priority key is smaller than the one used for a non-priority key; in the
code it is larger in both environments (0.15 versus 0.05 of the TTL in
production, 0.25 versus 0.15 in development), so at TTL 100 in
production the priority threshold is 15 and the non-priority threshold
is 5. -/
theorem prefetchThreshold_priority_not_smaller :
    prefetchThreshold true true 100 = 15 ∧
    prefetchThreshold true false 100 = 5 ∧
    ¬ prefetchThreshold true true 100 < prefetchThreshold true false 100 ∧
    ¬ prefetchFraction true true < prefetchFraction true false ∧
    ¬ prefetchFraction false true < prefetchFraction false false := by
  norm_num [prefetchThreshold, prefetchFraction]

/-- C7 amended: on every hit the caller is returned the still-valid
cached value, a background refresh is scheduled exactly when
expiresAt - now is below the prefetch threshold and the key is not
already queued, scheduling only adds the key to the prefetch queue, and
the threshold used for a priority key is larger (more eager, refreshing
earlier) than the one used for a non-priority key. -/
theorem get_hit_prefetch_schedule {α φ ε : Type} (isProduction : Bool)
    (s : CacheState α φ) (key : String) (queryFn : φ) (ttl now : Nat)
    (fetchRes : Except ε α) (c : CacheItem α)
    (hc : lookupE key s.cache = some c) (hfresh : now < c.expiresAt) :
    (getStep isProduction s key queryFn ttl now fetchRes).result =
      Except.ok c.data ∧
    ((getStep isProduction s key queryFn ttl now
        fetchRes).prefetchScheduled = true ↔
      (((c.expiresAt - now : Nat) : ℚ) <
          prefetchThreshold isProduction (decide (key ∈ s.priorityKeys)) ttl ∧
        key ∉ s.prefetchQueue)) ∧
    ((getStep isProduction s key queryFn ttl now
        fetchRes).prefetchScheduled = true →
      (getStep isProduction s key queryFn ttl now
          fetchRes).state.prefetchQueue = addKey key s.prefetchQueue) ∧
    (getStep isProduction s key queryFn ttl now fetchRes).state.cache =
      s.cache ∧
    (0 < ttl → prefetchThreshold isProduction false ttl <
      prefetchThreshold isProduction true ttl) := by
  have hthr : 0 < ttl → prefetchThreshold isProduction false ttl <
      prefetchThreshold isProduction true ttl := by
    intro hp
    have hq : (0 : ℚ) < (ttl : ℚ) := by exact_mod_cast hp
    cases isProduction <;>
      simp only [prefetchThreshold, prefetchFraction, Bool.false_eq_true,
        if_false, if_true] <;>
      exact mul_lt_mul_of_pos_left (by norm_num) hq
  simp only [getStep, hc, if_pos hfresh]
  by_cases hcnd : (((c.expiresAt - now : Nat) : ℚ) <
      prefetchThreshold isProduction (decide (key ∈ s.priorityKeys)) ttl) ∧
      key ∉ s.prefetchQueue
  · rw [if_pos hcnd]
    exact ⟨rfl, by simp [hcnd], fun _ => rfl, rfl, hthr⟩
  · rw [if_neg hcnd]
    refine ⟨rfl, by simp [hcnd], ?_, rfl, hthr⟩
    intro h
    simp at h

theorem get_hit_prefetch_schedule_witness :
    (lookupE "k" sampleState.cache = some ⟨7, 100, 160⟩ ∧
      (158 : Nat) < 160) ∧
    ((getStep true sampleState "k" () 60 158
        (Except.error "boom")).result =
      Except.ok (CacheItem.data ⟨7, 100, 160⟩) ∧
    ((getStep true sampleState "k" () 60 158
        (Except.error "boom")).prefetchScheduled = true ↔
      ((((CacheItem.expiresAt ⟨(7 : Nat), 100, 160⟩ - 158 : Nat) : ℚ) <
          prefetchThreshold true (decide ("k" ∈ sampleState.priorityKeys))
            60 ∧
        "k" ∉ sampleState.prefetchQueue))) ∧
    ((getStep true sampleState "k" () 60 158
        (Except.error "boom")).prefetchScheduled = true →
      (getStep true sampleState "k" () 60 158
          (Except.error "boom")).state.prefetchQueue =
        addKey "k" sampleState.prefetchQueue) ∧
    (getStep true sampleState "k" () 60 158
        (Except.error "boom")).state.cache = sampleState.cache ∧
    (0 < 60 → prefetchThreshold true false 60 <
      prefetchThreshold true true 60)) :=
  ⟨⟨by decide, by decide⟩,
    get_hit_prefetch_schedule true sampleState "k" () 60 158
      (Except.error "boom") ⟨7, 100, 160⟩ (by decide) (by decide)⟩

end HnAlerts

namespace HnAlerts

theorem append_right_ne_empty (s t : String) (ht : t ≠ "") : s ++ t ≠ "" := by
  intro h
  apply ht
  have hd := congrArg String.data h
  simp only [String.data_append] at hd
  exact String.ext (List.append_eq_nil.mp hd).2

/-- C8: the validator token is deterministic in the data (for a truthy
payload the ETag does not depend on the request time; for the time-bucket
fallback it depends only on the bucket); a request presenting the
currently issued token receives a 304 response with an empty body; and
when the payload changes so that the content-hash fragments differ, the
issued token differs from the previous one.  The hash pipeline
Bun.hash(...).toString(36).slice(0, 12) is a platform builtin modelled by
the abstract function hashFrag. -/
theorem etag_validator_correctness {ε : Type} (hashFrag : String → String)
    (version key : String) (maxAge n₁ n₂ ttl nowMs : Nat) (d d₂ : JVal)
    (htr : jsTruthy d = true) (htr₂ : jsTruthy d₂ = true)
    (hbucket : n₁ / (maxAge * 1000) = n₂ / (maxAge * 1000))
    (hhash : hashFrag (jsonStringify d) ≠ hashFrag (jsonStringify d₂)) :
    ((createCacheHeaders hashFrag version key maxAge n₁ (some d)).etag =
      (createCacheHeaders hashFrag version key maxAge n₂ (some d)).etag) ∧
    ((createCacheHeaders hashFrag version key maxAge n₁ none).etag =
      (createCacheHeaders hashFrag version key maxAge n₂ none).etag) ∧
    (cachedEndpointHandler (ε := ε) hashFrag version key ttl nowMs
        (Except.ok d)
        (some ((createCacheHeaders hashFrag version key ttl nowMs
          (some d)).etag)) =
      { status := 304,
        body := none,
        headers := [("ETag", (createCacheHeaders hashFrag version key ttl
            nowMs (some d)).etag),
          ("Cache-Control", (createCacheHeaders hashFrag version key ttl
            nowMs (some d)).cacheControl)] }) ∧
    ((createCacheHeaders hashFrag version key maxAge n₁ (some d)).etag ≠
      (createCacheHeaders hashFrag version key maxAge n₂ (some d₂)).etag) := by
  refine ⟨?_, ?_, ?_, ?_⟩
  · simp [createCacheHeaders, htr]
  · simp [createCacheHeaders, hbucket]
  · have hne : (createCacheHeaders hashFrag version key ttl nowMs
        (some d)).etag ≠ "" := by
      simp only [createCacheHeaders, htr, if_true]
      exact append_right_ne_empty _ _ (by decide)
    simp only [cachedEndpointHandler]
    rw [if_pos]
    simp only [Bool.and_eq_true, decide_eq_true_eq]
    exact ⟨hne, trivial⟩
  · simp only [createCacheHeaders, htr, htr₂, if_true]
    exact string_append_middle_ne _ _ _ _ hhash

theorem etag_validator_correctness_witness :
    (jsTruthy (JVal.num 1) = true ∧ jsTruthy (JVal.str "ab") = true ∧
      (100 : Nat) / (300 * 1000) = (200 : Nat) / (300 * 1000) ∧
      (fun s : String => toString s.length) (jsonStringify (JVal.num 1)) ≠
        (fun s : String => toString s.length)
          (jsonStringify (JVal.str "ab"))) ∧
    (((createCacheHeaders (fun s => toString s.length) "1.0.0" "k" 300 100
        (some (JVal.num 1))).etag =
      (createCacheHeaders (fun s => toString s.length) "1.0.0" "k" 300 200
        (some (JVal.num 1))).etag) ∧
    ((createCacheHeaders (fun s => toString s.length) "1.0.0" "k" 300 100
        none).etag =
      (createCacheHeaders (fun s => toString s.length) "1.0.0" "k" 300 200
        none).etag) ∧
    (cachedEndpointHandler (ε := String) (fun s => toString s.length)
        "1.0.0" "k" 300 100 (Except.ok (JVal.num 1))
        (some ((createCacheHeaders (fun s => toString s.length) "1.0.0" "k"
          300 100 (some (JVal.num 1))).etag)) =
      { status := 304,
        body := none,
        headers := [("ETag", (createCacheHeaders
            (fun s => toString s.length) "1.0.0" "k" 300 100
            (some (JVal.num 1))).etag),
          ("Cache-Control", (createCacheHeaders
            (fun s => toString s.length) "1.0.0" "k" 300 100
            (some (JVal.num 1))).cacheControl)] }) ∧
    ((createCacheHeaders (fun s => toString s.length) "1.0.0" "k" 300 100
        (some (JVal.num 1))).etag ≠
      (createCacheHeaders (fun s => toString s.length) "1.0.0" "k" 300 200
        (some (JVal.str "ab"))).etag)) :=
  ⟨⟨by decide, by decide, by decide, by decide⟩,
    etag_validator_correctness (ε := String) (fun s => toString s.length)
      "1.0.0" "k" 300 100 200 300 100 (JVal.num 1) (JVal.str "ab")
      (by decide) (by decide) (by decide) (by decide)⟩

/-- C9: every failure of the cached endpoint (any error propagated out of
the cache read, whatever the exception value) produces the same fixed
response: server-error status 500 and, as body, exactly the serialized
error envelope with the generic message and code INTERNAL_SERVER_ERROR;
no detail of the exception reaches the response. -/
theorem endpoint_error_envelope {ε : Type} (hashFrag : String → String)
    (version cacheKey : String) (ttl nowMs : Nat) (e : ε)
    (clientETag : Option String) :
    cachedEndpointHandler hashFrag version cacheKey ttl nowMs
        (Except.error e) clientETag =
      { status := 500,
        body := some ERROR_RESPONSE,
        headers := [("Content-Type", "application/json"),
          ("Cache-Control", "no-cache, no-store"), ("X-Error", "true")] } ∧
    ERROR_RESPONSE =
      "\x7b\"error\":\"An error occurred processing your request\",\"code\":\"INTERNAL_SERVER_ERROR\"\x7d" :=
  ⟨rfl, rfl⟩

theorem mem_addKey_self (k : String) (l : List String) : k ∈ addKey k l := by
  unfold addKey
  by_cases h : k ∈ l
  · rw [if_pos h]
    exact h
  · rw [if_neg h]
    simp

/-- C10: the registration performed by createCachedEndpoint forces
priority for the leaderboard key no matter what the caller passed, uses
the caller flag for every other key, stores exactly the supplied query
function and TTL, and puts the key into the priority-key set exactly
when the computed flag is true. -/
theorem createCachedEndpoint_priority_flag {α φ : Type} (s : CacheState α φ)
    (cacheKey : String) (queryFn : φ) (ttl : Nat) (isPriority : Bool) :
    lookupE cacheKey (createCachedEndpointRegistration s cacheKey queryFn
        ttl isPriority).queryRegistry =
      some ⟨queryFn, ttl,
        decide (cacheKey = "leaderboard_stories") || isPriority⟩ ∧
    (cacheKey = "leaderboard_stories" →
      (decide (cacheKey = "leaderboard_stories") || isPriority) = true) ∧
    (cacheKey ≠ "leaderboard_stories" →
      (decide (cacheKey = "leaderboard_stories") || isPriority) =
        isPriority) ∧
    ((decide (cacheKey = "leaderboard_stories") || isPriority) = true →
      cacheKey ∈ (createCachedEndpointRegistration s cacheKey queryFn ttl
        isPriority).priorityKeys) ∧
    ((decide (cacheKey = "leaderboard_stories") || isPriority) = false →
      cacheKey ∉ (createCachedEndpointRegistration s cacheKey queryFn ttl
        isPriority).priorityKeys) := by
  refine ⟨?_, fun h => by simp [h], fun h => by simp [h], fun h => ?_,
    fun h => ?_⟩
  · simp only [createCachedEndpointRegistration, register]
    exact lookupE_setE_self ..
  · simp only [createCachedEndpointRegistration, register, h, if_true]
    exact mem_addKey_self ..
  · simp only [createCachedEndpointRegistration, register, h,
      Bool.false_eq_true, if_false]
    simp [removeKey]

theorem createCachedEndpoint_priority_flag_witness :
    (("leaderboard_stories" : String) = "leaderboard_stories" ∧
      (decide (("leaderboard_stories" : String) = "leaderboard_stories") ||
        false) = true) ∧
    (lookupE "leaderboard_stories"
        (createCachedEndpointRegistration emptyState "leaderboard_stories"
          () 300 false).queryRegistry =
      some ⟨(), 300,
        decide (("leaderboard_stories" : String) = "leaderboard_stories") ||
          false⟩ ∧
      "leaderboard_stories" ∈ (createCachedEndpointRegistration emptyState
        "leaderboard_stories" () 300 false).priorityKeys) :=
  ⟨⟨rfl, by decide⟩,
    (createCachedEndpoint_priority_flag emptyState "leaderboard_stories" ()
      300 false).1,
    (createCachedEndpoint_priority_flag emptyState "leaderboard_stories" ()
      300 false).2.2.2.1 (by decide)⟩

end HnAlerts
